import Mathlib

/-!
Shallow embedding of the PSL file parser (package parser: file.go, parser.go,
errors.go): the byte-to-line normalization layer, the Source line-range
abstraction, the block tree, and the recursive-descent parser, together with
theorems checking the specification claims against the embedded code.

Bytes are modelled as List Nat, line text as String (with all string
operations defined here over the underlying character list, mirroring the
Go standard-library functions the source uses), and Go panics as the error
case of Except String.
-/

namespace PSL

/-! ## String helpers, mirroring the Go standard library functions used by the source -/

/-- Go unicode.IsSpace: the Unicode White_Space property (unicode.White_Space table). -/
def isSpaceGo (c : Char) : Bool :=
  let n := c.toNat
  (0x09 ≤ n && n ≤ 0x0D) || n == 0x20 || n == 0x85 || n == 0xA0 || n == 0x1680 ||
  (0x2000 ≤ n && n ≤ 0x200A) || n == 0x2028 || n == 0x2029 || n == 0x202F ||
  n == 0x205F || n == 0x3000

/-- Go strings.HasPrefix. -/
def strHasPre (p s : String) : Bool := p.data.isPrefixOf s.data

/-- Go strings.HasSuffix. -/
def strHasSuf (p s : String) : Bool := p.data.isSuffixOf s.data

/-- Go strings.TrimPrefix. -/
def strTrimPre (p s : String) : String :=
  if strHasPre p s then String.mk (s.data.drop p.data.length) else s

/-- Go strings.CutSuffix: the string with the suffix removed, plus whether it was present. -/
def strCutSuf (p s : String) : String × Bool :=
  if strHasSuf p s then (String.mk (s.data.take (s.data.length - p.data.length)), true)
  else (s, false)

/-- Splits a character list at every occurrence of sep (Go strings.Split semantics). -/
def splitChar (sep : Char) : List Char → List (List Char)
  | [] => [[]]
  | c :: rest =>
    match splitChar sep rest with
    | [] => if c == sep then [[], []] else [[c]]
    | h :: t => if c == sep then [] :: h :: t else (c :: h) :: t

/-- Go strings.Split on a single-character separator, as a String operation. -/
def strSplit (sep : Char) (s : String) : List String :=
  (splitChar sep s.data).map String.mk

/-- Go strings.Cut with a single-character separator: text before the first
occurrence, text after it, and whether it occurred. -/
def cutChar (sep : Char) : List Char → List Char × List Char × Bool
  | [] => ([], [], false)
  | c :: rest =>
    if c == sep then ([], rest, true)
    else
      match cutChar sep rest with
      | (b, a, f) => (c :: b, a, f)

/-- Go strings.Cut on a single-character separator, as a String operation. -/
def strCut (sep : Char) (s : String) : String × String × Bool :=
  match cutChar sep s.data with
  | (b, a, f) => (String.mk b, String.mk a, f)

/-- Go strings.TrimLeftFunc with unicode.IsSpace. -/
def strTrimLeftSpace (s : String) : String := String.mk (s.data.dropWhile isSpaceGo)

/-- Go strings.TrimRightFunc with unicode.IsSpace. -/
def strTrimRightSpace (s : String) : String :=
  String.mk ((s.data.reverse.dropWhile isSpaceGo).reverse)

/-- Drops the first n characters (Go byte-slicing s[n:] on ASCII-led strings). -/
def strDrop (n : Nat) (s : String) : String := String.mk (s.data.drop n)

/-- Joins lines with a newline separator (Go strings.Join(lines, newline)). -/
def strJoinNL : List String → String
  | [] => ""
  | [l] => l
  | l :: rest => l ++ "\n" ++ strJoinNL rest

/-- The Unicode replacement character that decoders substitute for invalid input. -/
def replacementChar : Char := ⟨0xFFFD, by decide⟩

/-! ## Source: a line range over the normalized line buffer (file.go) -/

/-- Source is a slice of the input file lines together with the absolute
index of its first line; it selects the half-open interval
[lineOffset, lineOffset + lines.length). -/
structure Source where
  lines : List String
  lineOffset : Nat
deriving DecidableEq, Repr

/-- Text returns the source text of s (file.go Source.Text). -/
def Source.Text (s : Source) : String :=
  match s.lines with
  | [l] => l
  | ls => strJoinNL ls

/-- empty reports whether s contains any lines (file.go Source.empty). -/
def Source.empty (s : Source) : Bool := s.lines.isEmpty

/-- slice returns the sub-range [startLine:endLine) of s; the bounds check
mirrors the Go panic in file.go Source.slice. -/
def Source.slice (s : Source) (startLine endLine : Nat) : Except String Source :=
  if startLine > s.lines.length || endLine < startLine || endLine > s.lines.length then
    Except.error "invalid input to slice"
  else
    Except.ok ⟨(s.lines.drop startLine).take (endLine - startLine), s.lineOffset + startLine⟩

/-- first returns the first line of s, panicking (error) if s is empty (file.go). -/
def Source.first (s : Source) : Except String Source := s.slice 0 1

/-- takeN removes n lines from s and returns them with the remaining source;
if s contains fewer than n lines it panics (file.go Source.takeN). -/
def Source.takeN (s : Source) (n : Nat) : Except String (Source × Source) :=
  if n > s.lines.length then Except.error "takeN out of range"
  else Except.ok (⟨s.lines.take n, s.lineOffset⟩, ⟨s.lines.drop n, s.lineOffset + n⟩)

/-- takeOne removes one line from s (file.go Source.takeOne). -/
def Source.takeOne (s : Source) : Except String (Source × Source) := s.takeN 1

/-- takeWhile removes the maximal run of initial lines satisfying fn and
returns it with the remaining source (file.go Source.takeWhile); it never
panics because the run length is at most the number of lines. -/
def Source.takeWhile (fn : String → Bool) (s : Source) : Source × Source :=
  let taken := s.lines.takeWhile fn
  (⟨taken, s.lineOffset⟩, ⟨s.lines.drop taken.length, s.lineOffset + taken.length⟩)

/-- takeWhileNot (file.go Source.takeWhileNot). -/
def Source.takeWhileNot (fn : String → Bool) (s : Source) : Source × Source :=
  s.takeWhile (fun t => !fn t)

/-- Modelled from the spec: takeUntil is used by the source (parser.go
parseGroup) but its definition is absent from the snapshot; per the spec it
consumes up to and including the first line matching fn, reporting whether a
match was found. -/
def Source.takeUntil (fn : String → Bool) (s : Source) : Source × Source × Bool :=
  match s.lines.findIdx? fn with
  | some i =>
    (⟨s.lines.take (i + 1), s.lineOffset⟩,
     ⟨s.lines.drop (i + 1), s.lineOffset + i + 1⟩, true)
  | none => (⟨s.lines, s.lineOffset⟩, ⟨[], s.lineOffset + s.lines.length⟩, false)

/-- append extends s with the lines of o; the two sources must be adjacent,
otherwise it panics (file.go Source.append). -/
def Source.append (s o : Source) : Except String Source :=
  if s.lineOffset + s.lines.length ≠ o.lineOffset then
    Except.error "invalid append of non-adjacent Sources"
  else Except.ok ⟨s.lines ++ o.lines, s.lineOffset⟩

/-! ## Diagnostics (errors.go): the closed set of error kinds.
Errors that carry pointers to tree nodes in Go (Section, Group, Suffix) are
modelled carrying the node name and source range. -/

inductive Err where
  | UTF8BOMError
  | InvalidEncodingError (encoding : String)
  | InvalidUTF8Error (line : Source)
  | DOSNewlineError (line : Source)
  | TrailingWhitespaceError (line : Source)
  | LeadingWhitespaceError (line : Source)
  | UnclosedSectionError (name : String) (sectionSrc : Source)
  | NestedSectionError (src : Source) (name : String) (sectionName : String) (sectionSrc : Source)
  | UnstartedSectionError (src : Source) (name : String)
  | MismatchedSectionError (src : Source) (endName : String) (sectionName : String) (sectionSrc : Source)
  | UnknownSectionMarker (line : Source)
  | UnterminatedSectionMarker (src : Source)
  | ExceptionAndWildcardSuffixError (src : Source)
  | ExceptionNotDirectlyFollowingBaseError (src : Source)
  | InvalidExceptionError (src : Source) (parentSrc : Source)
  | DuplicateExceptionError (src : Source)
  | MismatchedGroupError (src : Source) (endName : String) (groupName : String) (groupSrc : Source)
  | UnclosedGroupError (name : String) (groupSrc : Source)
  | NestedGroupError (src : Source) (name : String) (groupName : String) (groupSrc : Source)
deriving DecidableEq, Repr

/-! ## Encoding detection and normalization (file.go) -/

/-- The three decoders normalizeToUTF8Lines can use (file.go: utf8Transform,
utf16LittleEndianTransform, utf16BigEndianTransform). -/
inductive Encoding where
  | utf8
  | utf16le
  | utf16be
deriving DecidableEq, Repr

def bomUTF8bytes : List Nat := [0xEF, 0xBB, 0xBF]

def bomUTF16BEbytes : List Nat := [0xFE, 0xFF]

def bomUTF16LEbytes : List Nat := [0xFF, 0xFE]

/-- The byte-scanning loop of guessUTFVariant (file.go): i is the next byte
offset, evenZeros and oddZeros count the zero bytes seen so far at even and
odd offsets; at the 20th zero the decision is made. -/
def guessLoop : List Nat → Nat → Nat → Nat → Encoding
  | [], _, _, _ => Encoding.utf8
  | b :: rest, i, evenZeros, oddZeros =>
    if b ≠ 0 then guessLoop rest (i + 1) evenZeros oddZeros
    else
      let e := if i % 2 == 0 then evenZeros + 1 else evenZeros
      let o := if i % 2 == 0 then oddZeros else oddZeros + 1
      if e + o < 20 then guessLoop rest (i + 1) e o
      else if e > 15 then Encoding.utf16be
      else if o > 15 then Encoding.utf16le
      else Encoding.utf8

/-- guessUTFVariant guesses the encoding of bs by scanning at most its first
200 bytes (file.go guessUTFVariant). -/
def guessUTFVariant (bs : List Nat) : Encoding := guessLoop (bs.take 200) 0 0 0

/-- Modelled from the spec: UTF-8 decoding with invalid byte sequences
replaced by the Unicode replacement character. The source delegates decoding
to the external golang.org/x/text library, which is not part of this
repository; this is the standard UTF-8 decoding algorithm. fuel bounds the
recursion and is always at least the input length. -/
def decodeUTF8Chars : Nat → List Nat → List Char
  | 0, _ => []
  | _, [] => []
  | fuel + 1, b :: rest =>
    if b < 0x80 then
      Char.ofNat b :: decodeUTF8Chars fuel rest
    else if 0xC2 ≤ b && b ≤ 0xDF then
      match rest with
      | c1 :: rest2 =>
        if 0x80 ≤ c1 && c1 ≤ 0xBF then
          Char.ofNat ((b - 0xC0) * 64 + (c1 - 0x80)) :: decodeUTF8Chars fuel rest2
        else replacementChar :: decodeUTF8Chars fuel rest
      | [] => [replacementChar]
    else if 0xE0 ≤ b && b ≤ 0xEF then
      match rest with
      | c1 :: c2 :: rest3 =>
        let v := (b - 0xE0) * 4096 + (c1 - 0x80) * 64 + (c2 - 0x80)
        if 0x80 ≤ c1 && c1 ≤ 0xBF && 0x80 ≤ c2 && c2 ≤ 0xBF &&
           decide (0x800 ≤ v) && !(0xD800 ≤ v && v ≤ 0xDFFF) then
          Char.ofNat v :: decodeUTF8Chars fuel rest3
        else replacementChar :: decodeUTF8Chars fuel rest
      | _ => [replacementChar]
    else if 0xF0 ≤ b && b ≤ 0xF4 then
      match rest with
      | c1 :: c2 :: c3 :: rest4 =>
        let v := (b - 0xF0) * 262144 + (c1 - 0x80) * 4096 + (c2 - 0x80) * 64 + (c3 - 0x80)
        if 0x80 ≤ c1 && c1 ≤ 0xBF && 0x80 ≤ c2 && c2 ≤ 0xBF && 0x80 ≤ c3 && c3 ≤ 0xBF &&
           decide (0x10000 ≤ v) && decide (v ≤ 0x10FFFF) then
          Char.ofNat v :: decodeUTF8Chars fuel rest4
        else replacementChar :: decodeUTF8Chars fuel rest
      | _ => [replacementChar]
    else replacementChar :: decodeUTF8Chars fuel rest

/-- Assembles UTF-16 code units into characters, combining surrogate pairs
and replacing lone surrogates. -/
def utf16UnitsToChars : List Nat → List Char
  | [] => []
  | [u] =>
    if 0xD800 ≤ u && u ≤ 0xDFFF then [replacementChar] else [Char.ofNat u]
  | u :: u2 :: rest =>
    if 0xD800 ≤ u && u ≤ 0xDBFF then
      if 0xDC00 ≤ u2 && u2 ≤ 0xDFFF then
        Char.ofNat (0x10000 + (u - 0xD800) * 1024 + (u2 - 0xDC00)) :: utf16UnitsToChars rest
      else replacementChar :: utf16UnitsToChars (u2 :: rest)
    else if 0xDC00 ≤ u && u ≤ 0xDFFF then replacementChar :: utf16UnitsToChars (u2 :: rest)
    else Char.ofNat u :: utf16UnitsToChars (u2 :: rest)

/-- Groups bytes into 16-bit code units; le selects little-endian byte
order; a trailing lone byte decodes to a replacement character. -/
def utf16Units (le : Bool) : List Nat → List Nat
  | [] => []
  | [_] => [0xFFFD]
  | b0 :: b1 :: rest =>
    (if le then b0 + 256 * b1 else 256 * b0 + b1) :: utf16Units le rest

/-- Modelled from the spec: decoding for the selected transform (the source
uses the external golang.org/x/text decoders). The UTF-8 decoder strips a
single leading UTF-8 BOM; the UTF-16 decoders honor a leading BOM when
present (overriding the assumed byte order) and strip it. -/
def decodeBytes (enc : Encoding) (bs : List Nat) : String :=
  match enc with
  | Encoding.utf8 =>
    let body := if bomUTF8bytes.isPrefixOf bs then bs.drop 3 else bs
    String.mk (decodeUTF8Chars (body.length + 1) body)
  | Encoding.utf16le =>
    if bomUTF16LEbytes.isPrefixOf bs then String.mk (utf16UnitsToChars (utf16Units true (bs.drop 2)))
    else if bomUTF16BEbytes.isPrefixOf bs then String.mk (utf16UnitsToChars (utf16Units false (bs.drop 2)))
    else String.mk (utf16UnitsToChars (utf16Units true bs))
  | Encoding.utf16be =>
    if bomUTF16BEbytes.isPrefixOf bs then String.mk (utf16UnitsToChars (utf16Units false (bs.drop 2)))
    else if bomUTF16LEbytes.isPrefixOf bs then String.mk (utf16UnitsToChars (utf16Units true (bs.drop 2)))
    else String.mk (utf16UnitsToChars (utf16Units false bs))

/-- Go strings.CutSuffix(line, carriage-return) as used by the sanitize loop. -/
def cutSuffixCR (s : String) : String × Bool := strCutSuf "\r" s

/-- The per-line sanitize step of normalizeToUTF8Lines (file.go, loop body):
reports deviations against the pre-sanitization line at absolute index i and
returns the sanitized text. The Go loop rewrites the line only when a
transform changes it; the unconditional composition below yields the same
final text because an unchanged transform is the identity. -/
def processLine (i : Nat) (line : String) : String × List Err :=
  let src : Source := ⟨[line], i⟩
  let e1 : List Err := if line.data.contains replacementChar then [Err.InvalidUTF8Error src] else []
  let (line1, hadCR) := cutSuffixCR line
  let e2 : List Err := if hadCR then [Err.DOSNewlineError src] else []
  let line2 := strTrimRightSpace line1
  let e3 : List Err := if line2 ≠ line1 then [Err.TrailingWhitespaceError src] else []
  let line3 := strTrimLeftSpace line2
  let e4 : List Err := if line3 ≠ line2 then [Err.LeadingWhitespaceError src] else []
  (line3, e1 ++ e2 ++ e3 ++ e4)

/-- The encoding selection at the top of normalizeToUTF8Lines (file.go):
the BOM checks, falling back to the guess heuristic, together with the
encoding deviation errors they report. -/
def chooseEncoding (bs : List Nat) : Encoding × List Err :=
  if bomUTF8bytes.isPrefixOf bs then (Encoding.utf8, [Err.UTF8BOMError])
  else if bomUTF16BEbytes.isPrefixOf bs then (Encoding.utf16be, [Err.InvalidEncodingError "UTF-16BE"])
  else if bomUTF16LEbytes.isPrefixOf bs then (Encoding.utf16le, [Err.InvalidEncodingError "UTF-16LE"])
  else
    match guessUTFVariant bs with
    | Encoding.utf16be => (Encoding.utf16be, [Err.InvalidEncodingError "UTF-16BE (guessed)"])
    | Encoding.utf16le => (Encoding.utf16le, [Err.InvalidEncodingError "UTF-16LE (guessed)"])
    | Encoding.utf8 => (Encoding.utf8, [])

/-- normalizeToUTF8Lines slices bs into one sanitized UTF-8 string per line,
together with the deviations from the canonical encoding (file.go). -/
def normalizeToUTF8Lines (bs : List Nat) : List String × List Err :=
  let (enc, errs) := chooseEncoding bs
  let decoded := decodeBytes enc bs
  if decoded.data.isEmpty then ([], errs)
  else
    let raw := strSplit '\n' decoded
    let processed := raw.enum.map (fun p => processLine p.1 p.2)
    (processed.map Prod.fst, errs ++ processed.flatMap Prod.snd)

/-- newSource returns a Source for bs along with preliminary input
validation errors (file.go newSource). -/
def newSource (bs : List Nat) : Source × List Err :=
  let (lines, errs) := normalizeToUTF8Lines bs
  (⟨lines, 0⟩, errs)

/-! ## The block tree (file.go) -/

/-- Block is a parsed chunk of a PSL file. The Suffixes metadata fields
(Entity, URLs, Emails) are never populated by the snapshot parser and are
omitted; children lists are the Blocks fields of the Go nodes. -/
inductive Block where
  | BlankLines (src : Source)
  | InvalidSource (src : Source)
  | Comment (src : Source)
  | Section (src : Source) (name : String) (blocks : List Block)
  | Group (src : Source) (name : String) (blocks : List Block)
  | Suffixes (src : Source) (blocks : List Block)
  | Suffix (src : Source) (labels : List String) (wildcard : Bool)
      (exceptions : List (List String))

/-- source returns the source range of a block (file.go source methods). -/
def Block.src : Block → Source
  | Block.BlankLines s => s
  | Block.InvalidSource s => s
  | Block.Comment s => s
  | Block.Section s _ _ => s
  | Block.Group s _ _ => s
  | Block.Suffixes s _ => s
  | Block.Suffix s _ _ _ => s

/-- File is the parse result (file.go File); Warnings are never populated by
the snapshot and are omitted. -/
structure File where
  Blocks : List Block
  Errors : List Err

/-- parser is the state of an in-progress parse (parser.go): the remaining
source, the blocks produced so far in the current frame, and the errors
produced so far. -/
structure ParserState where
  source : Source
  blocks : List Block
  errs : List Err

/-- addBlock adds b to the parser output (parser.go). -/
def addBlock (b : Block) (p : ParserState) : ParserState :=
  { p with blocks := p.blocks ++ [b] }

/-- addError adds err to the parser output (parser.go). -/
def addError (e : Err) (p : ParserState) : ParserState :=
  { p with errs := p.errs ++ [e] }

/-- Modelled from the spec: lastBlock is used by parser.go
parseSuffixException but its definition is absent from the snapshot; per the
spec it is the most recently emitted block in the current frame. -/
def lastBlock (p : ParserState) : Option Block := p.blocks.getLast?

/-! ## Line classification and marker parsing (parser.go) -/

def commentStart : String := "// "

def sectionMarkerStart : String := "// ==="

def sectionStart : String := "// ===BEGIN "

def sectionEnd : String := "// ===END "

def amazonGroupStart : String := "// Amazon : https://www.amazon.com/"

def amazonGroupEnd : String := "// concludes Amazon"

def isEmptyGo (s : String) : Bool := s == ""

def isSectionStart (s : String) : Bool := strHasPre sectionStart s

/-- isSectionEnd as written in the snapshot: it tests HasSuffix, not
HasPrefix (parser.go line 121); the function is never called by the parser. -/
def isSectionEnd (s : String) : Bool := strHasSuf sectionEnd s

def isAnySectionMarker (s : String) : Bool := strHasPre sectionMarkerStart s

/-- Modelled from the spec: isPotentialSectionMarker is used throughout
parser.go but its definition is absent from the snapshot; per the spec a
potential section marker is any line starting with the marker lead-in. -/
def isPotentialSectionMarker (s : String) : Bool := strHasPre sectionMarkerStart s

def isGroupStart (s : String) : Bool := s == amazonGroupStart

def isGroupEnd (s : String) : Bool := s == amazonGroupEnd

/-- Modelled from the spec: isStartOfGroup is used by the parser but absent
from the snapshot; only the one hardcoded group start marker exists. -/
def isStartOfGroup (s : String) : Bool := isGroupStart s

/-- Modelled from the spec: isPotentialEndOfGroup is used by parseGroup but
absent from the snapshot; only the one hardcoded group end marker exists. -/
def isPotentialEndOfGroup (s : String) : Bool := isGroupEnd s

def isComment (s : String) : Bool :=
  strHasPre commentStart s && !isAnySectionMarker s && !isGroupStart s && !isGroupEnd s

/-- parseSectionMarker breaks up a section marker of the form
marker-lead-in VERB NAME terminator into its parts (parser.go). -/
def parseSectionMarker (marker : String) : String × String × Bool :=
  let m1 := strTrimPre sectionMarkerStart marker
  let (m2, ok) := strCutSuf "===" m1
  let missingTerminator := !ok
  let (markerType, name, ok2) := strCut ' ' m2
  if !ok2 then ("", "", missingTerminator)
  else (markerType, name, missingTerminator)

/-- parseGroupStartMarker (parser.go): only the hardcoded Amazon group. -/
def parseGroupStartMarker (marker : String) : String × Bool :=
  if marker ≠ amazonGroupStart then ("", false) else ("Amazon", true)

/-- parseGroupEndMarker (parser.go): only the hardcoded Amazon group. -/
def parseGroupEndMarker (marker : String) : String × Bool :=
  if marker ≠ amazonGroupEnd then ("", false) else ("Amazon", true)

/-- parseDNSLabels (parser.go) splits a domain name into its labels. The
snapshot version returns only labels and a nil error, yet its callers also
destructure a wildcard flag; that flag is modelled from the spec: a leading
star-dot marks the suffix as wildcard and is stripped before storing. -/
def parseDNSLabels (s : String) : List String × Bool × Option Err :=
  if strHasPre "*." s then (strSplit '.' (strDrop 2 s), true, none)
  else (strSplit '.' s, false, none)

/-- IsDirectChildOf (file.go DNSLabels.IsDirectChildOf): true iff l has
exactly one more label than parent and ends with the full parent sequence
(slice.Tail(l, len(parent)) is the last len(parent) elements of l). -/
def IsDirectChildOf (l parent : List String) : Bool :=
  if l.length ≠ parent.length + 1 then false
  else l.drop (l.length - parent.length) == parent

/-! ## The recursive-descent parser (parser.go) -/

/-- The blank-run step shared by the parser loops: consume the run of blank
lines and add a BlankLines block when the run is non-empty (the first half
of parser.go parseWhitespace). -/
def parseBlankRun (p : ParserState) : ParserState :=
  let (src, rest) := p.source.takeWhile isEmptyGo
  let p1 := { p with source := rest }
  if !src.empty then addBlock (Block.BlankLines src) p1 else p1

/-- parseWhitespace (parser.go lines 224-230): parses blank lines into a
BlankLines block. The snapshot returns p.empty(), which is true exactly when
no input remains, although its doc comment says it reports whether there is
any input left to process. -/
def parseWhitespace (p : ParserState) : ParserState × Bool :=
  let q := parseBlankRun p
  (q, q.source.empty)

/-- parseComment (parser.go lines 233-239) as written in the snapshot: it
takes the run of comment lines and then panics when that run is non-empty,
although its panic message says it fires when no comment was found. -/
def parseComment (p : ParserState) : Except String ParserState :=
  let (src, rest) := p.source.takeWhile isComment
  if !src.empty then Except.error "unexpected: parseComment called but no comment found"
  else Except.ok (addBlock (Block.Comment src) { p with source := rest })

/-- parseInvalid (parser.go lines 242-244): consumes one line into a new
InvalidSource block. -/
def parseInvalid (p : ParserState) : Except String ParserState := do
  let (one, rest) ← p.source.takeOne
  Except.ok (addBlock (Block.InvalidSource one) { p with source := rest })

/-- parseSuffixException (parser.go lines 415-451): validates an
exception line against the most recently emitted block and either reports
the first failing check or folds the line into the base suffix. -/
def parseSuffixException (p : ParserState) : Except String ParserState := do
  let src ← p.source.first
  let (labels, wildcard, errOpt) := parseDNSLabels (strDrop 1 src.Text)
  match errOpt with
  | some e => parseInvalid (addError e p)
  | none =>
    if wildcard then parseInvalid (addError (Err.ExceptionAndWildcardSuffixError src) p)
    else
      match lastBlock p with
      | some (Block.Suffix prevSrc prevLabels prevWild prevExceptions) =>
        if !(IsDirectChildOf labels prevLabels) then
          parseInvalid (addError (Err.InvalidExceptionError src prevSrc) p)
        else if prevExceptions.any (fun e => e == labels) then
          parseInvalid (addError (Err.DuplicateExceptionError src) p)
        else do
          let (one, rest) ← p.source.takeOne
          let merged ← prevSrc.append one
          Except.ok { source := rest,
                      blocks := p.blocks.dropLast ++
                        [Block.Suffix merged prevLabels prevWild (prevExceptions ++ [labels])],
                      errs := p.errs }
      | _ => parseInvalid (addError (Err.ExceptionNotDirectlyFollowingBaseError src) p)

/-- parseSuffix (parser.go lines 393-413). -/
def parseSuffix (p : ParserState) : Except String ParserState := do
  let src ← p.source.first
  if strHasPre "!" src.Text then parseSuffixException p
  else
    let (labels, wildcard, errOpt) := parseDNSLabels src.Text
    match errOpt with
    | some e => parseInvalid (addError e p)
    | none => do
      let (one, rest) ← p.source.takeOne
      Except.ok { p with
                  source := rest,
                  blocks := p.blocks ++ [Block.Suffix one labels wildcard []] }

/-- The switch body of the suffix-block loop (parser.go lines 382-389):
marker lines become invalid text, comment lines go to parseComment,
everything else to parseSuffix. -/
def suffixBlockStep (p : ParserState) (next : String) : Except String ParserState :=
  if isPotentialSectionMarker next then parseInvalid p
  else if isComment next then parseComment p
  else parseSuffix p

/-- The suffix-block body loop (parser.go lines 380-390) as staged: it
continues while parseWhitespace returns true, which per the inverted return
of the staged parseWhitespace is exactly when no input remains, so an
entered iteration panics at Source.first and the loop never dispatches its
switch. -/
def parseSuffixBlockLoop : Nat → ParserState → Except String ParserState
  | 0, _ => Except.error "out of fuel"
  | fuel + 1, p0 =>
    if (parseWhitespace p0).2 then
      match (parseWhitespace p0).1.source.first with
      | Except.error e => Except.error e
      | Except.ok fst =>
        match suffixBlockStep (parseWhitespace p0).1 fst.Text with
        | Except.error e => Except.error e
        | Except.ok q2 => parseSuffixBlockLoop fuel q2
    else Except.ok (parseWhitespace p0).1

/-- parseSuffixBlock (parser.go lines 369-391): consumes the run up to the
next blank line into a Suffixes node whose children are parsed in a fresh
frame. The frame operations pushState and popState are absent from the
snapshot and are modelled from the spec: the frame gets a fresh child
accumulator, errors stay shared, and the children are attached on pop. -/
def parseSuffixBlock (p : ParserState) : Except String ParserState :=
  let (src, rest) := p.source.takeWhileNot isEmptyGo
  match parseSuffixBlockLoop (src.lines.length + 1) ⟨src, [], p.errs⟩ with
  | Except.error e => Except.error e
  | Except.ok sub =>
    Except.ok { source := rest,
                blocks := p.blocks ++ [Block.Suffixes src sub.blocks],
                errs := sub.errs }

/-- parseRogueSection (parser.go lines 301-317): classifies a marker found
inside an open section, reports one error, and folds the line into invalid
text. -/
def parseRogueSection (sectionName : String) (sectionSrc : Source) (p : ParserState) :
    Except String ParserState :=
  match p.source.first with
  | Except.error e => Except.error e
  | Except.ok src =>
    let (kind, name, missingTerminator) := parseSectionMarker src.Text
    if name == "" || (kind ≠ "BEGIN" && kind ≠ "END") then
      parseInvalid (addError (Err.UnknownSectionMarker src) p)
    else if kind == "BEGIN" then
      parseInvalid (addError (Err.NestedSectionError src name sectionName sectionSrc) p)
    else if name ≠ sectionName then
      parseInvalid (addError (Err.MismatchedSectionError src name sectionName sectionSrc) p)
    else if missingTerminator then
      parseInvalid (addError (Err.UnterminatedSectionMarker src) p)
    else Except.error "unreachable"

/-- parseRogueGroup (parser.go lines 357-367). -/
def parseRogueGroup (groupName : String) (groupSrc : Source) (p : ParserState) :
    Except String ParserState :=
  match p.source.first with
  | Except.error e => Except.error e
  | Except.ok src =>
    let (name, ok) := parseGroupStartMarker src.Text
    if !ok then Except.error "unparseable rogue group"
    else parseInvalid (addError (Err.NestedGroupError src name groupName groupSrc) p)

/-- The switch body of the group body loop (parser.go lines 346-353):
marker lines go to parseRogueSection, a group start to parseRogueGroup,
everything else to parseSuffixBlock. -/
def groupBodyStep (sectionName : String) (sectionSrc : Source)
    (groupName : String) (groupSrc : Source) (p : ParserState) (next : String) :
    Except String ParserState :=
  if isPotentialSectionMarker next then parseRogueSection sectionName sectionSrc p
  else if isStartOfGroup next then parseRogueGroup groupName groupSrc p
  else parseSuffixBlock p

/-- The group body loop (parser.go lines 344-354) as staged: it continues
while parseWhitespace returns true, which per the inverted return of the
staged parseWhitespace is exactly when no input remains, so an entered
iteration panics at Source.first. -/
def parseGroupBodyLoop (sectionName : String) (sectionSrc : Source)
    (groupName : String) (groupSrc : Source) :
    Nat → ParserState → Except String ParserState
  | 0, _ => Except.error "out of fuel"
  | fuel + 1, p0 =>
    if (parseWhitespace p0).2 then
      match (parseWhitespace p0).1.source.first with
      | Except.error e => Except.error e
      | Except.ok fst =>
        match groupBodyStep sectionName sectionSrc groupName groupSrc (parseWhitespace p0).1 fst.Text with
        | Except.error e => Except.error e
        | Except.ok q2 => parseGroupBodyLoop sectionName sectionSrc groupName groupSrc fuel q2
    else Except.ok (parseWhitespace p0).1

/-- The end-marker checks of parseGroup: MismatchedGroupError when the
closing marker names a different group, UnclosedGroupError when the group
never closes. -/
def groupEndErrs (p1 : ParserState) (src : Source) (name : String) (hasEnd : Bool) :
    ParserState :=
  if hasEnd then
    match src.lines.getLast? with
    | some lastLine =>
      if (parseGroupEndMarker lastLine).1 ≠ name then
        addError (Err.MismatchedGroupError src (parseGroupEndMarker lastLine).1 name src) p1
      else p1
    | none => p1
  else addError (Err.UnclosedGroupError name src) p1

/-- parseGroup (parser.go lines 319-355): scans to the group end marker
with takeUntil (a helper absent from the snapshot, modelled from the spec),
emits the Group node, checks the end marker, and runs the staged body loop
over the pushed range. The staged code pushes group.Source itself, the whole
range including both marker lines; the frame operations pushState and
popState and the helpers parseGroupStart and Source.last are absent from the
snapshot (last survives only as commented-out code in file.go), so the frame
is modelled as a fresh child accumulator over that pushed range with the
error list shared. -/
def parseGroup (sectionName : String) (sectionSrc : Source) (p : ParserState) :
    Except String ParserState :=
  let (src, rest, hasEnd) := p.source.takeUntil isPotentialEndOfGroup
  match src.first with
  | Except.error e => Except.error e
  | Except.ok fst =>
    let (name, ok) := parseGroupStartMarker fst.Text
    if !ok then Except.error "parseGroup called but was not start of a group"
    else
      let p2 := groupEndErrs { p with source := rest } src name hasEnd
      match parseGroupBodyLoop sectionName sectionSrc name src
        (src.lines.length + 1) ⟨src, [], p2.errs⟩ with
      | Except.error e => Except.error e
      | Except.ok sub =>
        Except.ok { source := p2.source,
                    blocks := p2.blocks ++ [Block.Group src name sub.blocks],
                    errs := sub.errs }

/-- The switch body of the section body loop (parser.go lines 279-286):
marker lines go to parseRogueSection, a group start to parseGroup,
everything else to parseSuffixBlock. -/
def sectionBodyStep (sectionName : String) (sectionSrc : Source)
    (p : ParserState) (next : String) : Except String ParserState :=
  if isPotentialSectionMarker next then parseRogueSection sectionName sectionSrc p
  else if isStartOfGroup next then parseGroup sectionName sectionSrc p
  else parseSuffixBlock p

/-- The section body loop (parser.go lines 277-287) as staged: it continues
while parseWhitespace returns true, which per the inverted return of the
staged parseWhitespace is exactly when no input remains, so an entered
iteration panics at Source.first and the rogue and group branches are
unreachable from it. -/
def parseSectionBodyLoop (sectionName : String) (sectionSrc : Source) :
    Nat → ParserState → Except String ParserState
  | 0, _ => Except.error "out of fuel"
  | fuel + 1, p0 =>
    if (parseWhitespace p0).2 then
      match (parseWhitespace p0).1.source.first with
      | Except.error e => Except.error e
      | Except.ok fst =>
        match sectionBodyStep sectionName sectionSrc (parseWhitespace p0).1 fst.Text with
        | Except.error e => Except.error e
        | Except.ok q2 => parseSectionBodyLoop sectionName sectionSrc fuel q2
    else Except.ok (parseWhitespace p0).1

/-- parseSection (parser.go lines 248-288), as staged. The classification
of the opening marker and its diagnostics are literal (the snapshot names
the marker line src, an undeclared variable; start is the only line in
scope). The staged continuation is embedded as written: it builds a Section
node from the start line, appends the body text to it, and parses the body
in a fresh sub-parser with its own empty block and error lists, but then
discards the node, the sub-parser blocks and the sub-parser errors, and
emits nothing; the body scan is takeWhileNot over potential marker lines, so
it stops before the first marker line of any kind, no search for the
closing marker of the same name exists (checkSectionEnd is a stub with no
return value), and UnclosedSectionError is declared in errors.go but
constructed nowhere. -/
def parseSection (p : ParserState) : Except String ParserState :=
  match p.source.takeOne with
  | Except.error e => Except.error e
  | Except.ok (start, rest0) =>
  let p0 := { p with source := rest0 }
  let (kind, name, missingTerminator) := parseSectionMarker start.Text
  if name == "" || (kind ≠ "BEGIN" && kind ≠ "END") then
    Except.ok (addBlock (Block.InvalidSource start) (addError (Err.UnknownSectionMarker start) p0))
  else if kind == "END" then
    Except.ok (addBlock (Block.InvalidSource start) (addError (Err.UnstartedSectionError start name) p0))
  else if missingTerminator then
    Except.ok (addBlock (Block.InvalidSource start) (addError (Err.UnterminatedSectionMarker start) p0))
  else
    let (defs, rest) := p0.source.takeWhileNot isPotentialSectionMarker
    let sectionSrc : Source := ⟨start.lines ++ defs.lines, start.lineOffset⟩
    match parseSectionBodyLoop name sectionSrc (defs.lines.length + 1) ⟨defs, [], []⟩ with
    | Except.error e => Except.error e
    | Except.ok _ => Except.ok { p0 with source := rest }

/-- The top-level loop of parseTopLevel (parser.go lines 203-220), with
explicit ample fuel. Its condition is the literal return value of the
snapshot parseWhitespace. -/
def parseTopLevelLoop : Nat → ParserState → Except String ParserState
  | 0, _ => Except.error "out of fuel"
  | fuel + 1, p =>
    let (q, cont) := parseWhitespace p
    if cont then do
      let fst ← q.source.first
      let next := fst.Text
      let q2 ←
        if isComment next then parseComment q
        else if isPotentialSectionMarker next then parseSection q
        else parseInvalid q
      parseTopLevelLoop fuel q2
    else Except.ok q

/-- parseTopLevel (parser.go lines 203-220): runs the top-level loop and
returns the File. -/
def parseTopLevel (p : ParserState) : Except String File := do
  let q ← parseTopLevelLoop (p.source.lines.length + 1) p
  Except.ok ⟨q.blocks, q.errs⟩

/-- Parse (parser.go lines 21-36): builds the source and runs the parse.
The snapshot calls p.parse(), which is absent; parseTopLevel is the only
top-level parse routine in the snapshot and is used in its place. -/
def Parse (bs : List Nat) : Except String File := do
  let (src, srcErrs) := newSource bs
  parseTopLevel ⟨src, [], srcErrs⟩

/-! ## Claim-side definitions -/

/-- The lines covered by a block list, in order: the concatenation of the
literal source text of every block. -/
def blocksLines (bs : List Block) : List String := bs.flatMap (fun b => b.src.lines)

/-- Whether a block list contains two adjacent blocks that are both
InvalidSource. -/
def hasAdjacentInvalidPair : List Block → Bool
  | Block.InvalidSource _ :: Block.InvalidSource _ :: _ => true
  | _ :: rest => hasAdjacentInvalidPair rest
  | [] => false

/-- Whether an optional block is a plain Suffix node. -/
def isSuffixBlock : Option Block → Bool
  | some (Block.Suffix _ _ _ _) => true
  | _ => false

/-! ## Helper lemmas -/

theorem source_first_cons {p : ParserState} {l : String} {rest : List String}
    (h : p.source.lines = l :: rest) :
    p.source.first = Except.ok ⟨[l], p.source.lineOffset⟩ := by
  unfold Source.first Source.slice
  rw [h]
  simp

theorem source_takeOne_cons {p : ParserState} {l : String} {rest : List String}
    (h : p.source.lines = l :: rest) :
    p.source.takeOne = Except.ok (⟨[l], p.source.lineOffset⟩, ⟨rest, p.source.lineOffset + 1⟩) := by
  unfold Source.takeOne Source.takeN
  rw [h]
  simp

theorem parseDNSLabels_err_none (s : String) : (parseDNSLabels s).2.2 = none := by
  unfold parseDNSLabels
  split <;> rfl

theorem parseInvalid_cons {p : ParserState} {l : String} {rest : List String}
    (h : p.source.lines = l :: rest) :
    parseInvalid p = Except.ok
      { source := ⟨rest, p.source.lineOffset + 1⟩,
        blocks := p.blocks ++ [Block.InvalidSource ⟨[l], p.source.lineOffset⟩],
        errs := p.errs } := by
  unfold parseInvalid addBlock
  rw [source_takeOne_cons h]
  rfl

/-! ## Claim theorems -/

/-- C1: the claim states that Parse returns a File for every byte input with
no reachable panic. The snapshot code aborts on the empty input: after
consuming the (empty) blank run, parseWhitespace returns p.empty(), true
exactly when no input remains, so the top-level loop body runs on an empty
source and Source.first hits the slice bounds panic. -/
theorem C1_parse_panics_on_empty_input :
    Parse [] = Except.error "invalid input to slice" := by rfl

/-- C2: the claim states that the concatenated literal text of all top-level
blocks reproduces the normalized line buffer. For the one-line input with
the single byte 97 the buffer is the line a, yet Parse returns zero blocks,
because the inverted parseWhitespace return value makes the top-level loop
exit immediately whenever input remains, so the concatenation is empty and
coverage fails. -/
theorem C2_coverage_fails_on_single_line :
    Parse [97] = Except.ok { Blocks := [], Errors := [] } ∧
    (normalizeToUTF8Lines [97]).1 = ["a"] ∧
    blocksLines [] ≠ ["a"] :=
  ⟨rfl, rfl, by decide⟩

/-- C10: normalizing the empty byte input returns zero lines (not a single
empty line) and no diagnostics, and newSource still returns a usable empty
Source at offset zero. -/
theorem C10_empty_input_yields_no_lines :
    normalizeToUTF8Lines [] = ([], []) ∧
    newSource [] = (⟨[], 0⟩, []) ∧
    (⟨[], 0⟩ : Source).empty = true :=
  ⟨rfl, rfl, rfl⟩

/-- A parser state whose most recently emitted block is an InvalidSource
block and whose next line fails to classify. -/
def c4State : ParserState := ⟨⟨["y"], 1⟩, [Block.InvalidSource ⟨["x"], 0⟩], []⟩

/-- C4 counterexample: the claim states that when the most recently emitted
block is already InvalidSource, the next failing line is appended to it via
the range merge rather than starting a new block, so that no two adjacent
sibling blocks are both InvalidSource. At c4State the snapshot parseInvalid
starts a second, separate single-line InvalidSource block adjacent to the
first, and does not produce the merged block the claim requires. -/
theorem C4_counterexample_adjacent_invalids :
    parseInvalid c4State = Except.ok
      ⟨⟨[], 2⟩, [Block.InvalidSource ⟨["x"], 0⟩, Block.InvalidSource ⟨["y"], 1⟩], []⟩ ∧
    hasAdjacentInvalidPair
      [Block.InvalidSource ⟨["x"], 0⟩, Block.InvalidSource ⟨["y"], 1⟩] = true ∧
    parseInvalid c4State ≠ Except.ok
      ⟨⟨[], 2⟩, [Block.InvalidSource ⟨["x", "y"], 0⟩], []⟩ := by
  refine ⟨rfl, rfl, ?_⟩
  intro hcontra
  have h1 : Except.ok (ε := String)
      (⟨⟨[], 2⟩, [Block.InvalidSource ⟨["x"], 0⟩, Block.InvalidSource ⟨["y"], 1⟩], []⟩ : ParserState) =
      Except.ok ⟨⟨[], 2⟩, [Block.InvalidSource ⟨["x", "y"], 0⟩], []⟩ := by
    rw [← hcontra]
    rfl
  have h2 := Except.ok.inj h1
  have h3 := congrArg (fun s => s.blocks.length) h2
  simp at h3

/-- C4 (amended): parseInvalid always starts a fresh single-line
InvalidSource block for the failing line, regardless of the previously
emitted block; adjacent invalid lines are not coalesced. -/
theorem C4_parseInvalid_always_new_block :
    ∀ (p : ParserState) (l : String) (rest : List String),
      p.source.lines = l :: rest →
      parseInvalid p = Except.ok
        { source := ⟨rest, p.source.lineOffset + 1⟩,
          blocks := p.blocks ++ [Block.InvalidSource ⟨[l], p.source.lineOffset⟩],
          errs := p.errs } :=
  fun _ _ _ h => parseInvalid_cons h

/-- C4 witness: the amended theorem applied at c4State. -/
theorem C4_witness :
    parseInvalid c4State = Except.ok
      { source := ⟨[], 2⟩,
        blocks := c4State.blocks ++ [Block.InvalidSource ⟨["y"], 1⟩],
        errs := [] } :=
  C4_parseInvalid_always_new_block c4State "y" [] rfl

/-- The C5 input: a section that begins under the name A, contains a
wrongly-named END marker for B in its body, closes under the name A, and is
followed by further content. -/
def c5Input : ParserState :=
  ⟨⟨["// ===BEGIN A===", "foo.com", "", "// ===END B===", "", "bar.com",
     "// ===END A===", "xyz.example"], 0⟩, [], []⟩

/-- C5: the claim states that this input yields a MismatchedSectionError
naming both A and B, with the wrongly-named END marker handled as a rogue
marker and the scan continuing past it to the correctly-named closing
marker. The staged parseSection instead stops its body scan at the first
marker line of any kind, leaves the END B line in the input, discards the
section node and the sub-parser together with its diagnostics, and so
reports no error and emits no block at this input; parseRogueSection, the
staged code that would report the mismatch, is unreachable from it because
the body handed to the sub-parser can contain no marker line, and the
sub-parser results are dropped in any case. -/
theorem C5_mismatched_end_unreported :
    parseSection c5Input = Except.ok
      { source := ⟨["// ===END B===", "", "bar.com", "// ===END A===", "xyz.example"], 3⟩,
        blocks := [], errs := [] } := by rfl

theorem source_first_structured (l : String) (rest : List String) (off : Nat) :
    Source.first ⟨l :: rest, off⟩ = Except.ok ⟨[l], off⟩ := by
  unfold Source.first Source.slice
  simp

theorem source_takeOne_structured (l : String) (rest : List String) (off : Nat) :
    Source.takeOne ⟨l :: rest, off⟩ = Except.ok (⟨[l], off⟩, ⟨rest, off + 1⟩) := by
  unfold Source.takeOne Source.takeN
  simp

theorem source_append_adjacent {s : Source} {l : String} {off : Nat}
    (h : s.lineOffset + s.lines.length = off) :
    s.append ⟨[l], off⟩ = Except.ok ⟨s.lines ++ [l], s.lineOffset⟩ := by
  unfold Source.append
  simp [h]

theorem source_Text_single (l : String) (off : Nat) : Source.Text ⟨[l], off⟩ = l := rfl

/-- C3: for every line starting with an exclamation mark handled inside a
suffix block, the four checks run in the fixed order wildcard,
preceding-block, direct-child, duplicate, stopping at the first failure with
exactly that diagnostic; on success the labels are appended to the base
suffix exception list and the line is merged into the base suffix range. -/
theorem C3_exception_line_contract :
    ∀ (off : Nat) (l : String) (rest : List String) (blocks : List Block) (errs : List Err),
      strHasPre "!" l = true →
      ((parseDNSLabels (strDrop 1 l)).2.1 = true →
        parseSuffixException ⟨⟨l :: rest, off⟩, blocks, errs⟩ = Except.ok
          { source := ⟨rest, off + 1⟩,
            blocks := blocks ++ [Block.InvalidSource ⟨[l], off⟩],
            errs := errs ++ [Err.ExceptionAndWildcardSuffixError ⟨[l], off⟩] }) ∧
      ((parseDNSLabels (strDrop 1 l)).2.1 = false →
        isSuffixBlock blocks.getLast? = false →
        parseSuffixException ⟨⟨l :: rest, off⟩, blocks, errs⟩ = Except.ok
          { source := ⟨rest, off + 1⟩,
            blocks := blocks ++ [Block.InvalidSource ⟨[l], off⟩],
            errs := errs ++ [Err.ExceptionNotDirectlyFollowingBaseError ⟨[l], off⟩] }) ∧
      (∀ ps pl pw pe,
        (parseDNSLabels (strDrop 1 l)).2.1 = false →
        blocks.getLast? = some (Block.Suffix ps pl pw pe) →
        IsDirectChildOf (parseDNSLabels (strDrop 1 l)).1 pl = false →
        parseSuffixException ⟨⟨l :: rest, off⟩, blocks, errs⟩ = Except.ok
          { source := ⟨rest, off + 1⟩,
            blocks := blocks ++ [Block.InvalidSource ⟨[l], off⟩],
            errs := errs ++ [Err.InvalidExceptionError ⟨[l], off⟩ ps] }) ∧
      (∀ ps pl pw pe,
        (parseDNSLabels (strDrop 1 l)).2.1 = false →
        blocks.getLast? = some (Block.Suffix ps pl pw pe) →
        IsDirectChildOf (parseDNSLabels (strDrop 1 l)).1 pl = true →
        pe.any (fun e => e == (parseDNSLabels (strDrop 1 l)).1) = true →
        parseSuffixException ⟨⟨l :: rest, off⟩, blocks, errs⟩ = Except.ok
          { source := ⟨rest, off + 1⟩,
            blocks := blocks ++ [Block.InvalidSource ⟨[l], off⟩],
            errs := errs ++ [Err.DuplicateExceptionError ⟨[l], off⟩] }) ∧
      (∀ ps pl pw pe,
        (parseDNSLabels (strDrop 1 l)).2.1 = false →
        blocks.getLast? = some (Block.Suffix ps pl pw pe) →
        IsDirectChildOf (parseDNSLabels (strDrop 1 l)).1 pl = true →
        pe.any (fun e => e == (parseDNSLabels (strDrop 1 l)).1) = false →
        ps.lineOffset + ps.lines.length = off →
        parseSuffixException ⟨⟨l :: rest, off⟩, blocks, errs⟩ = Except.ok
          { source := ⟨rest, off + 1⟩,
            blocks := blocks.dropLast ++
              [Block.Suffix ⟨ps.lines ++ [l], ps.lineOffset⟩ pl pw
                (pe ++ [(parseDNSLabels (strDrop 1 l)).1])],
            errs := errs }) := by
  intro off l rest blocks errs _
  rcases hdns : parseDNSLabels (strDrop 1 l) with ⟨labels, wildcard, errOpt⟩
  have herr := parseDNSLabels_err_none (strDrop 1 l)
  rw [hdns] at herr
  simp only at herr
  subst herr
  refine ⟨?_, ?_, ?_, ?_, ?_⟩
  · intro hw
    simp only at hw
    subst hw
    unfold parseSuffixException
    rw [source_first_structured]
    simp only [Except.bind, bind, source_Text_single]
    rw [hdns]
    exact parseInvalid_cons rfl
  · intro hw hnb
    simp only at hw
    subst hw
    unfold parseSuffixException
    rw [source_first_structured]
    simp only [Except.bind, bind, source_Text_single]
    rw [hdns]
    simp only [lastBlock]
    rcases hlb : blocks.getLast? with _ | b
    · exact parseInvalid_cons rfl
    · cases b
      case Suffix ps pl pw pe =>
        rw [hlb] at hnb
        simp [isSuffixBlock] at hnb
      all_goals exact parseInvalid_cons rfl
  · intro ps pl pw pe hw hlb hchild
    simp only at hw hchild
    subst hw
    unfold parseSuffixException
    rw [source_first_structured]
    simp only [Except.bind, bind, source_Text_single]
    rw [hdns]
    simp only [lastBlock, hlb, hchild]
    exact parseInvalid_cons rfl
  · intro ps pl pw pe hw hlb hchild hdup
    simp only at hw hchild hdup
    subst hw
    unfold parseSuffixException
    rw [source_first_structured]
    simp only [Except.bind, bind, source_Text_single]
    rw [hdns]
    simp only [lastBlock, hlb, hchild, hdup]
    exact parseInvalid_cons rfl
  · intro ps pl pw pe hw hlb hchild hdup hadj
    simp only at hw hchild hdup
    subst hw
    unfold parseSuffixException
    rw [source_first_structured]
    simp only [Except.bind, bind, source_Text_single]
    rw [hdns]
    simp only [lastBlock, hlb, hchild, hdup]
    rw [source_takeOne_structured]
    simp only [Except.bind, bind]
    rw [source_append_adjacent hadj]
    rfl

/-- C3 witness: the contract applied at a concrete state in which the
exception line directly follows its base suffix and is accepted. -/
theorem C3_witness :
    parseSuffixException
      ⟨⟨["!foo.example.uk"], 2⟩,
       [Block.Suffix ⟨["example.uk"], 1⟩ ["example", "uk"] false []], []⟩ = Except.ok
      { source := ⟨[], 3⟩,
        blocks := [Block.Suffix ⟨["example.uk", "!foo.example.uk"], 1⟩ ["example", "uk"] false
          [["foo", "example", "uk"]]],
        errs := [] } := by
  have h := (C3_exception_line_contract 2 "!foo.example.uk" []
    [Block.Suffix ⟨["example.uk"], 1⟩ ["example", "uk"] false []] [] (by decide)).2.2.2.2
  exact h ⟨["example.uk"], 1⟩ ["example", "uk"] false [] (by decide) rfl (by decide) rfl rfl

/-- The single diagnostic the claim assigns to a malformed marker line, in
the claim severity order: unparseable name, then wrong verb (both reported
as UnknownSectionMarker), then an END with no open section, then a missing
terminator; none when the marker is a well-formed BEGIN. -/
def malformedMarkerDiagnostic (src : Source) (kind name : String)
    (missingTerminator : Bool) : Option Err :=
  if name == "" then some (Err.UnknownSectionMarker src)
  else if kind ≠ "BEGIN" && kind ≠ "END" then some (Err.UnknownSectionMarker src)
  else if kind == "END" then some (Err.UnstartedSectionError src name)
  else if missingTerminator then some (Err.UnterminatedSectionMarker src)
  else none

/-- C7: every top-level marker line whose marker is malformed (unparseable
name, wrong verb, or a stray END with no open section, or a missing
terminator) produces exactly one diagnostic, the one chosen by the severity
order, and the marker line is emitted as ordinary invalid text rather than
opening a section; parseSection is the handler parseTopLevel invokes on
every top-level marker line. -/
theorem C7_malformed_marker_single_diagnostic :
    ∀ (off : Nat) (l : String) (rest : List String) (blocks : List Block)
      (errs : List Err) (e : Err),
      malformedMarkerDiagnostic ⟨[l], off⟩ (parseSectionMarker l).1
        (parseSectionMarker l).2.1 (parseSectionMarker l).2.2 = some e →
      parseSection ⟨⟨l :: rest, off⟩, blocks, errs⟩ = Except.ok
        { source := ⟨rest, off + 1⟩,
          blocks := blocks ++ [Block.InvalidSource ⟨[l], off⟩],
          errs := errs ++ [e] } := by
  intro off l rest blocks errs e h
  rcases hm : parseSectionMarker l with ⟨kind, rest2⟩
  rcases rest2 with ⟨name, mt⟩
  rw [hm] at h
  simp only at h
  unfold parseSection
  rw [source_takeOne_structured]
  simp only [Except.bind, bind, source_Text_single]
  have hk : (parseSectionMarker l).1 = kind := by rw [hm]
  have hn : (parseSectionMarker l).2.1 = name := by rw [hm]
  have hmt : (parseSectionMarker l).2.2 = mt := by rw [hm]
  simp only [hk, hn, hmt]
  unfold malformedMarkerDiagnostic at h
  by_cases h1 : name == ""
  · simp only [h1, Bool.true_or, if_true, if_pos] at h ⊢
    cases h
    rfl
  · simp only [h1, Bool.false_or, if_false] at h ⊢
    by_cases h2 : kind ≠ "BEGIN" && kind ≠ "END"
    · simp only [h2, if_true, if_pos] at h ⊢
      cases h
      rfl
    · simp only [h2, if_false] at h ⊢
      by_cases h3 : kind == "END"
      · simp only [h3, if_true, if_pos] at h ⊢
        cases h
        rfl
      · simp only [h3, if_false] at h ⊢
        by_cases h4 : mt = true
        · simp only [h4, if_true, if_pos] at h ⊢
          cases h
          rfl
        · simp only [h4, if_false] at h
          cases h

/-- C7 witness: the severity order applied to a concrete marker line with a
verb that is neither BEGIN nor END. -/
theorem C7_witness :
    parseSection ⟨⟨["// ===FOO A==="], 0⟩, [], []⟩ = Except.ok
      { source := ⟨[], 1⟩,
        blocks := [Block.InvalidSource ⟨["// ===FOO A==="], 0⟩],
        errs := [Err.UnknownSectionMarker ⟨["// ===FOO A==="], 0⟩] } :=
  C7_malformed_marker_single_diagnostic 0 "// ===FOO A===" [] [] []
    (Err.UnknownSectionMarker ⟨["// ===FOO A==="], 0⟩) (by decide)

/-- A line is clean when it has no leading whitespace character, no
trailing whitespace character, and no trailing carriage return. -/
def isCleanLineB (l : String) : Bool :=
  (match l.data.head? with
   | some c => !isSpaceGo c
   | none => true) &&
  (match l.data.getLast? with
   | some c => !isSpaceGo c
   | none => true) &&
  (match l.data.getLast? with
   | some c => !(c == '\r')
   | none => true)

theorem head_dropWhile_not {p : Char → Bool} {l : List Char} {c : Char}
    (h : (l.dropWhile p).head? = some c) : p c = false := by
  induction l with
  | nil => simp [List.dropWhile] at h
  | cons a t ih =>
    rw [List.dropWhile_cons] at h
    by_cases hp : p a
    · simp [hp] at h
      exact ih h
    · simp [hp] at h
      rw [← h]
      simpa using hp

theorem getLast?_of_suffix {d y : List Char} (h : d <:+ y) {c : Char}
    (hc : d.getLast? = some c) : y.getLast? = some c := by
  obtain ⟨t, rfl⟩ := h
  have hd : d ≠ [] := by
    intro h0
    rw [h0] at hc
    simp at hc
  rw [List.getLast?_append_of_ne_nil t hd, hc]

theorem trimRight_getLast_not (x : String) {c : Char}
    (h : (strTrimRightSpace x).data.getLast? = some c) : isSpaceGo c = false := by
  have hx : (strTrimRightSpace x).data = (x.data.reverse.dropWhile isSpaceGo).reverse := rfl
  rw [hx, List.getLast?_reverse] at h
  exact head_dropWhile_not h

theorem clean_after_trims (x : String) :
    isCleanLineB (strTrimLeftSpace (strTrimRightSpace x)) = true := by
  have hdata : (strTrimLeftSpace (strTrimRightSpace x)).data
      = (strTrimRightSpace x).data.dropWhile isSpaceGo := rfl
  have hlast : ∀ c, ((strTrimRightSpace x).data.dropWhile isSpaceGo).getLast? = some c →
      isSpaceGo c = false := by
    intro c hg
    exact trimRight_getLast_not x (getLast?_of_suffix (List.dropWhile_suffix _) hg)
  unfold isCleanLineB
  rw [hdata]
  rw [Bool.and_eq_true, Bool.and_eq_true]
  refine ⟨⟨?_, ?_⟩, ?_⟩
  · cases hh : ((strTrimRightSpace x).data.dropWhile isSpaceGo).head? with
    | none => rfl
    | some c => simp [head_dropWhile_not hh]
  · cases hg : ((strTrimRightSpace x).data.dropWhile isSpaceGo).getLast? with
    | none => rfl
    | some c => simp [hlast c hg]
  · cases hg : ((strTrimRightSpace x).data.dropWhile isSpaceGo).getLast? with
    | none => rfl
    | some c =>
      have h3 := hlast c hg
      have hc : c ≠ '\r' := by
        intro hcc
        subst hcc
        exact absurd h3 (by decide)
      simp [hc]

theorem processLine_fst (i : Nat) (x : String) :
    (processLine i x).1 = strTrimLeftSpace (strTrimRightSpace (cutSuffixCR x).1) := rfl

/-- C9: every line in the normalized line sequence, for every byte input, is
clean: no leading or trailing whitespace character and no trailing carriage
return; the sanitization is applied uniformly, so this holds also for lines
that raised no diagnostic. The remaining clean-ness clauses of the claim
hold by construction of the modelled decoders: lines are sequences of
Unicode scalars with invalid input replaced, and a leading byte-order mark
is consumed by the decoder before line splitting, as the second conjunct
shows on a BOM-led input. -/
theorem C9_every_line_clean :
    (∀ (bs : List Nat) (l : String), l ∈ (normalizeToUTF8Lines bs).1 → isCleanLineB l = true) ∧
    normalizeToUTF8Lines (bomUTF8bytes ++ [47, 47, 32, 104, 105]) =
      (["// hi"], [Err.UTF8BOMError]) := by
  constructor
  · intro bs l hmem
    unfold normalizeToUTF8Lines at hmem
    rcases hce : chooseEncoding bs with ⟨enc, errs0⟩
    rw [hce] at hmem
    simp only at hmem
    by_cases hdec : (decodeBytes enc bs).data.isEmpty
    · rw [if_pos hdec] at hmem
      simp at hmem
    · rw [if_neg hdec] at hmem
      simp only [List.mem_map] at hmem
      obtain ⟨pr, hpr, hline⟩ := hmem
      obtain ⟨pr2, _, hpl⟩ := hpr
      rw [← hline, ← hpl, processLine_fst]
      exact clean_after_trims _
  · rfl

/-- C9 witness: the clean-line theorem applied to the single-line input with
byte 97. -/
theorem C9_witness :
    ("a" ∈ (normalizeToUTF8Lines [97]).1) ∧ isCleanLineB "a" = true :=
  ⟨by decide, C9_every_line_clean.1 [97] "a" (by decide)⟩


def zeroOffsets : List Nat → Nat → List Nat
  | [], _ => []
  | b :: rest, i =>
    if b = 0 then i :: zeroOffsets rest (i + 1) else zeroOffsets rest (i + 1)

def countEvenOffsets (zs : List Nat) : Nat := (zs.filter (fun i => i % 2 == 0)).length

def countOddOffsets (zs : List Nat) : Nat := (zs.filter (fun i => i % 2 != 0)).length

theorem guessLoop_eq_spec (t : List Nat) :
    ∀ (i e o : Nat), e + o < 20 →
      guessLoop t i e o =
        (if (zeroOffsets t i).length < 20 - (e + o) then Encoding.utf8
         else
           if e + countEvenOffsets ((zeroOffsets t i).take (20 - (e + o))) > 15 then
             Encoding.utf16be
           else if o + countOddOffsets ((zeroOffsets t i).take (20 - (e + o))) > 15 then
             Encoding.utf16le
           else Encoding.utf8) := by
  induction t with
  | nil =>
    intro i e o h
    have hz : zeroOffsets [] i = [] := rfl
    rw [hz]
    have hc : ([] : List Nat).length < 20 - (e + o) := by
      simp
      omega
    rw [if_pos hc]
    rfl
  | cons b rest ih =>
    intro i e o h
    by_cases hb : b = 0
    · subst hb
      have hz : zeroOffsets (0 :: rest) i = i :: zeroOffsets rest (i + 1) := by
        simp [zeroOffsets]
      rw [hz]
      by_cases heven : i % 2 == 0
      · -- even offset: evenZeros increments
        have hstep : guessLoop (0 :: rest) i e o =
            (if e + 1 + o < 20 then guessLoop rest (i + 1) (e + 1) o
             else if e + 1 > 15 then Encoding.utf16be
             else if o > 15 then Encoding.utf16le
             else Encoding.utf8) := by
          simp [guessLoop, heven]
        rw [hstep]
        by_cases h20 : e + 1 + o < 20
        · rw [if_pos h20, ih (i + 1) (e + 1) o h20]
          have hg : 20 - (e + o) = (20 - (e + 1 + o)) + 1 := by omega
          rw [hg]
          have hlen : (i :: zeroOffsets rest (i + 1)).length < 20 - (e + 1 + o) + 1 ↔
              (zeroOffsets rest (i + 1)).length < 20 - (e + 1 + o) := by
            simp only [List.length_cons]
            omega
          have htake : (i :: zeroOffsets rest (i + 1)).take (20 - (e + 1 + o) + 1) =
              i :: (zeroOffsets rest (i + 1)).take (20 - (e + 1 + o)) := by
            simp [List.take_succ_cons]
          rw [htake]
          have hce : ∀ zs, countEvenOffsets (i :: zs) = countEvenOffsets zs + 1 := by
            intro zs
            simp [countEvenOffsets, List.filter, heven]
          have hco : ∀ zs, countOddOffsets (i :: zs) = countOddOffsets zs := by
            intro zs
            simp only [countOddOffsets, List.filter]
            rw [show ((i % 2 != 0) = false) by simpa using heven]
          rw [hce, hco]
          by_cases hl : (zeroOffsets rest (i + 1)).length < 20 - (e + 1 + o)
          · rw [if_pos hl, if_pos (hlen.mpr hl)]
          · rw [if_neg hl, if_neg (fun hx => hl (hlen.mp hx))]
            have he2 : e + 1 + countEvenOffsets ((zeroOffsets rest (i + 1)).take (20 - (e + 1 + o))) =
                e + (countEvenOffsets ((zeroOffsets rest (i + 1)).take (20 - (e + 1 + o))) + 1) := by
              omega
            rw [← he2]
        · rw [if_neg h20]
          -- at the 20th zero: gap is 1
          have hg : 20 - (e + o) = 1 := by omega
          rw [hg]
          have hlen2 : ¬ ((i :: zeroOffsets rest (i + 1)).length < 1) := by
            simp
          rw [if_neg hlen2]
          have htake1 : (i :: zeroOffsets rest (i + 1)).take 1 = [i] := by
            simp
          rw [htake1]
          have hce1 : countEvenOffsets [i] = 1 := by
            simp [countEvenOffsets, List.filter, heven]
          have hco1 : countOddOffsets [i] = 0 := by
            simp only [countOddOffsets, List.filter]
            rw [show ((i % 2 != 0) = false) by simpa using heven]
            rfl
          rw [hce1, hco1]
          rfl
      · have hodd : (i % 2 == 0) = false := by simpa using heven
        have hstep : guessLoop (0 :: rest) i e o =
            (if e + (o + 1) < 20 then guessLoop rest (i + 1) e (o + 1)
             else if e > 15 then Encoding.utf16be
             else if o + 1 > 15 then Encoding.utf16le
             else Encoding.utf8) := by
          simp [guessLoop, hodd]
        rw [hstep]
        by_cases h20 : e + (o + 1) < 20
        · rw [if_pos h20, ih (i + 1) e (o + 1) h20]
          have hg : 20 - (e + o) = (20 - (e + (o + 1))) + 1 := by omega
          rw [hg]
          have hlen : (i :: zeroOffsets rest (i + 1)).length < 20 - (e + (o + 1)) + 1 ↔
              (zeroOffsets rest (i + 1)).length < 20 - (e + (o + 1)) := by
            simp only [List.length_cons]
            omega
          have htake : (i :: zeroOffsets rest (i + 1)).take (20 - (e + (o + 1)) + 1) =
              i :: (zeroOffsets rest (i + 1)).take (20 - (e + (o + 1))) := by
            simp [List.take_succ_cons]
          rw [htake]
          have hce : ∀ zs, countEvenOffsets (i :: zs) = countEvenOffsets zs := by
            intro zs
            simp only [countEvenOffsets, List.filter]
            rw [hodd]
          have hco : ∀ zs, countOddOffsets (i :: zs) = countOddOffsets zs + 1 := by
            intro zs
            simp only [countOddOffsets, List.filter]
            rw [show ((i % 2 != 0) = true) by simpa using heven]
            rfl
          rw [hce, hco]
          by_cases hl : (zeroOffsets rest (i + 1)).length < 20 - (e + (o + 1))
          · rw [if_pos hl, if_pos (hlen.mpr hl)]
          · rw [if_neg hl, if_neg (fun hx => hl (hlen.mp hx))]
            have ho2 : o + 1 + countOddOffsets ((zeroOffsets rest (i + 1)).take (20 - (e + (o + 1)))) =
                o + (countOddOffsets ((zeroOffsets rest (i + 1)).take (20 - (e + (o + 1)))) + 1) := by
              omega
            rw [← ho2]
        · rw [if_neg h20]
          have hg : 20 - (e + o) = 1 := by omega
          rw [hg]
          have hlen2 : ¬ ((i :: zeroOffsets rest (i + 1)).length < 1) := by
            simp
          rw [if_neg hlen2]
          have htake1 : (i :: zeroOffsets rest (i + 1)).take 1 = [i] := by
            simp
          rw [htake1]
          have hce1 : countEvenOffsets [i] = 0 := by
            simp only [countEvenOffsets, List.filter]
            rw [hodd]
            rfl
          have hco1 : countOddOffsets [i] = 1 := by
            simp only [countOddOffsets, List.filter]
            rw [show ((i % 2 != 0) = true) by simpa using heven]
            rfl
          rw [hce1, hco1]
          rfl
    · have hz : zeroOffsets (b :: rest) i = zeroOffsets rest (i + 1) := by
        simp [zeroOffsets, hb]
      have hstep : guessLoop (b :: rest) i e o = guessLoop rest (i + 1) e o := by
        simp [guessLoop, hb]
      rw [hz, hstep, ih (i + 1) e o h]


/-- The guess heuristic as the spec words it: within the first 200 bytes,
zero bytes are counted at even and odd offsets until at least 20 zero bytes
have been seen; at that point UTF-16BE is guessed when the even-offset zeros
exceed 15, UTF-16LE when the odd-offset zeros exceed 15, and UTF-8
otherwise, including when fewer than 20 zeros appear in the prefix. -/
def guessUTFVariantSpec (bs : List Nat) : Encoding :=
  if (zeroOffsets (bs.take 200) 0).length < 20 then Encoding.utf8
  else
    if countEvenOffsets ((zeroOffsets (bs.take 200) 0).take 20) > 15 then Encoding.utf16be
    else if countOddOffsets ((zeroOffsets (bs.take 200) 0).take 20) > 15 then Encoding.utf16le
    else Encoding.utf8

/-- UTF-16LE encoding of an ASCII message, two bytes per character. -/
def utf16leEncodeASCII (s : String) : List Nat :=
  s.data.flatMap (fun c => [c.toNat % 256, c.toNat / 256])

def c8Message : String := "// this is a psl test file payload"

def c8Bytes : List Nat := utf16leEncodeASCII c8Message

/-- C8: the decoder guess for BOM-less input follows the spec heuristic
(first conjunct, the loop refines the declarative count-based description);
a guessed UTF-16 variant is reported as InvalidEncodingError with the
variant name suffixed (guessed) (second and third conjuncts); and a BOM-less
UTF-16LE ASCII message is detected, decoded to the correct text, and
reported (final conjunct). -/
theorem C8_bomless_encoding_guess :
    (∀ bs : List Nat, guessUTFVariant bs = guessUTFVariantSpec bs) ∧
    (∀ bs : List Nat,
      bomUTF8bytes.isPrefixOf bs = false →
      bomUTF16BEbytes.isPrefixOf bs = false →
      bomUTF16LEbytes.isPrefixOf bs = false →
      guessUTFVariant bs = Encoding.utf16le →
      (normalizeToUTF8Lines bs).2.head? =
        some (Err.InvalidEncodingError "UTF-16LE (guessed)")) ∧
    (∀ bs : List Nat,
      bomUTF8bytes.isPrefixOf bs = false →
      bomUTF16BEbytes.isPrefixOf bs = false →
      bomUTF16LEbytes.isPrefixOf bs = false →
      guessUTFVariant bs = Encoding.utf16be →
      (normalizeToUTF8Lines bs).2.head? =
        some (Err.InvalidEncodingError "UTF-16BE (guessed)")) ∧
    normalizeToUTF8Lines c8Bytes =
      ([c8Message], [Err.InvalidEncodingError "UTF-16LE (guessed)"]) := by
  refine ⟨?_, ?_, ?_, ?_⟩
  · intro bs
    unfold guessUTFVariant guessUTFVariantSpec
    have h := guessLoop_eq_spec (bs.take 200) 0 0 0 (by omega)
    simpa using h
  · intro bs h1 h2 h3 hg
    unfold normalizeToUTF8Lines chooseEncoding
    simp only [h1, h2, h3, hg, Bool.false_eq_true, if_false]
    by_cases hd : (decodeBytes Encoding.utf16le bs).data.isEmpty
    · simp [hd]
    · simp [hd]
  · intro bs h1 h2 h3 hg
    unfold normalizeToUTF8Lines chooseEncoding
    simp only [h1, h2, h3, hg, Bool.false_eq_true, if_false]
    by_cases hd : (decodeBytes Encoding.utf16be bs).data.isEmpty
    · simp [hd]
    · simp [hd]
  · rfl

/-- C8 witness: the guessed-LE reporting conjunct applied at the concrete
BOM-less UTF-16LE bytes. -/
theorem C8_witness :
    (normalizeToUTF8Lines c8Bytes).2.head? =
      some (Err.InvalidEncodingError "UTF-16LE (guessed)") :=
  C8_bomless_encoding_guess.2.1 c8Bytes (by decide) (by decide) (by decide) (by decide)



def c6Input : ParserState := ⟨⟨["// ===BEGIN A===", "foo.com"], 0⟩, [], []⟩

/-- C6: the claim states that a well-formed BEGIN marker never followed by
an END marker bearing the same name makes the remainder of the input the
section body and reports an UnclosedSectionError for that section. The
staged parseSection consumes the remainder but discards the section node and
the sub-parser, never constructs UnclosedSectionError (the error type is
declared in errors.go and constructed nowhere in the snapshot), and emits no
block (first conjunct); and when the text before end of input or the next
marker line is empty or all blank, it panics in Source.first instead,
through the inverted loop condition of its staged body loop (second
conjunct). -/
theorem C6_unclosed_section_unreported :
    parseSection c6Input = Except.ok { source := ⟨[], 2⟩, blocks := [], errs := [] } ∧
    parseSection ⟨⟨["// ===BEGIN A==="], 0⟩, [], []⟩ =
      Except.error "invalid input to slice" :=
  ⟨rfl, rfl⟩

end PSL
